import Mathlib

/-!
Verification of the cargo-distbuild core against its specification.

The development shallow-embeds the three core subsystems of the repository:

* the content-addressable store (`src/cas/mod.rs`): the on-disk blob store is
  modelled as an association list from file paths (lists of path components)
  to byte sequences (lists of naturals); SHA-256, an external library call in
  the source, is a function parameter;
* the scheduler (`src/scheduler/mod.rs`): the two in-memory maps of the
  `SchedulerState` become association lists with first-match lookup, and each
  RPC handler or internal pass becomes a pure state transformer; the points
  where the source reads the wall clock (`chrono::Utc::now`) take the time as
  an explicit `now` argument;
* the worker transformation (`src/worker/mod.rs`): the pure part of
  `execute_job_impl` acting on the decoded input text.

Association lists use first-occurrence semantics throughout, matching the
behaviour of a `HashMap` (whose keys are unique); where a proof needs key
uniqueness it takes it as an explicit well-formedness hypothesis.
-/

/-- Association-list lookup, modelling `HashMap::get`. -/
def lookupA {κ α : Type} [DecidableEq κ] (k : κ) : List (κ × α) → Option α
  | [] => none
  | p :: ps => if p.1 = k then some p.2 else lookupA k ps

/-- Association-list insert-or-overwrite, modelling `HashMap::insert`. -/
def insertA {κ α : Type} [DecidableEq κ] (k : κ) (v : α) : List (κ × α) → List (κ × α)
  | [] => [(k, v)]
  | p :: ps => if p.1 = k then (k, v) :: ps else p :: insertA k v ps

/-- Update of an existing entry, modelling mutation through `HashMap::get_mut`;
the identity when the key is absent (the source guards with `if let Some`). -/
def updateA {κ α : Type} [DecidableEq κ] (k : κ) (f : α → α) : List (κ × α) → List (κ × α)
  | [] => []
  | p :: ps => if p.1 = k then (k, f p.2) :: ps else p :: updateA k f ps

/-- The keys of an association list are pairwise distinct (a `HashMap` invariant). -/
def keysNodup {κ α : Type} (l : List (κ × α)) : Prop := (l.map Prod.fst).Nodup

/-! ### Content-addressable store (`src/cas/mod.rs`) -/

/-- Character-level reading of `Cas::hash_to_path`: digests of at least
4 characters live at `<root>/<h[0:2]>/<h[2:4]>/<h>`; shorter ones sit directly
at `<root>/<h>` (the guard added at the top of the function). The Rust source
measures and slices UTF-8 bytes, so this function agrees with it exactly on
ASCII digests (every SHA-256 hex digest is ASCII); `hashToPathBytes` below is
the byte-faithful version including the panic path. -/
def hashToPath (root : List String) (hash : String) : List String :=
  if hash.length < 4 then root ++ [hash]
  else root ++ [hash.take 2, (hash.drop 2).take 2, hash]

/-- The UTF-8 byte width of a character (`char::len_utf8` in Rust). -/
def utf8Width (c : Char) : Nat :=
  if c.toNat < 0x80 then 1
  else if c.toNat < 0x800 then 2
  else if c.toNat < 0x10000 then 3
  else 4

/-- The UTF-8 byte length of a character sequence (Rust `str::len`). -/
def utf8Len : List Char → Nat
  | [] => 0
  | c :: cs => utf8Width c + utf8Len cs

/-- Rust byte slice `s[0..n]`: the characters covering the first `n` bytes,
or `none` — a panic — when byte `n` is out of range or not a character
boundary. -/
def byteSlicePrefix : List Char → Nat → Option (List Char)
  | _, 0 => some []
  | [], _ + 1 => none
  | c :: cs, n + 1 =>
    if utf8Width c ≤ n + 1 then
      (byteSlicePrefix cs (n + 1 - utf8Width c)).map (fun l => c :: l)
    else none

/-- Rust byte slice `s[n..]`: drop the characters covering the first `n`
bytes, or `none` — a panic — when byte `n` is out of range or not a character
boundary. -/
def byteDrop : List Char → Nat → Option (List Char)
  | l, 0 => some l
  | [], _ + 1 => none
  | c :: cs, n + 1 =>
    if utf8Width c ≤ n + 1 then byteDrop cs (n + 1 - utf8Width c) else none

/-- Byte-faithful `Cas::hash_to_path`: `hash.len()` is the UTF-8 byte length
and `&hash[0..2]`, `&hash[2..4]` are byte slices; `none` models the panic
raised when a slice boundary falls inside a multi-byte character (or past the
end). -/
def hashToPathBytes (root : List String) (hash : String) : Option (List String) :=
  if utf8Len hash.data < 4 then some (root ++ [hash])
  else
    (byteSlicePrefix hash.data 2).bind (fun first2 =>
      (byteDrop hash.data 2).bind (fun rest =>
        (byteSlicePrefix rest 2).map (fun next2 =>
          root ++ [String.mk first2, String.mk next2, hash])))

/-- `Cas::get_path`: the path for a digest, without any existence check. -/
def getPath (root : List String) (hash : String) : List String := hashToPath root hash

/-- The on-disk blob store: a map from file path to the stored bytes. -/
abbrev CasStore := List (List String × List Nat)

/-- `Cas::exists`: path-existence check for a digest. -/
def casExists (root : List String) (store : CasStore) (hash : String) : Bool :=
  (lookupA (hashToPath root hash) store).isSome

/-- `Cas::get`: read back the bytes stored at the path of a digest, failing
when the path does not exist. -/
def casGet (root : List String) (store : CasStore) (hash : String) : Option (List Nat) :=
  lookupA (hashToPath root hash) store

/-- `Cas::put`: hash the data (the SHA-256 hex digest is the parameter
`sha256hex`, an external library call in the source), derive the path, and
write the blob only when the path does not already exist; the digest is
returned either way. -/
def casPut (sha256hex : List Nat → String) (root : List String) (store : CasStore)
    (data : List Nat) : String × CasStore :=
  let hash := sha256hex data
  let path := hashToPath root hash
  if (lookupA path store).isSome then (hash, store)
  else (hash, insertA path data store)

/-! ### Scheduler data model (`src/common/types.rs`) -/

/-- `JobStatusEnum` from `src/common/types.rs`. -/
inductive JobStatusEnum : Type
  | pending
  | assigned
  | running
  | completed
  | failed
deriving DecidableEq, Repr

/-- The wire encoding of a status (`impl From<JobStatusEnum> for i32`). -/
def statusToInt : JobStatusEnum → Int
  | .pending => 0
  | .assigned => 1
  | .running => 2
  | .completed => 3
  | .failed => 4

/-- `JobMetadata` from `src/common/types.rs`. -/
structure JobMetadata : Type where
  job_id : String
  input_hash : String
  output_hash : Option String
  job_type : String
  status : JobStatusEnum
  assigned_worker : Option String
  submitted_at : Int
  completed_at : Option Int
  metadata : List (String × String)
deriving DecidableEq, Repr

/-- `WorkerMetadata` from `src/common/types.rs` (u32 counters become `Nat`,
so that `saturating_sub` is plain truncated subtraction). -/
structure WorkerMetadata : Type where
  worker_id : String
  address : String
  capacity : Nat
  active_jobs : Nat
  last_heartbeat : Int
  labels : List (String × String)
deriving DecidableEq, Repr

/-- `SchedulerState` from `src/scheduler/mod.rs`: the two maps guarded by the
one reader-writer lock. -/
structure SchedulerState : Type where
  workers : List (String × WorkerMetadata)
  jobs : List (String × JobMetadata)
deriving DecidableEq, Repr

/-- Request messages of the wire protocol used by the modelled handlers. -/
structure RegisterWorkerRequest : Type where
  worker_id : String
  address : String
  capacity : Nat
  labels : List (String × String)
deriving DecidableEq, Repr

structure HeartbeatRequest : Type where
  worker_id : String
  active_jobs : Nat
  available_slots : Nat
deriving DecidableEq, Repr

structure SubmitJobRequest : Type where
  job_id : String
  input_hash : String
  job_type : String
  metadata : List (String × String)
deriving DecidableEq, Repr

structure ReportJobResultRequest : Type where
  job_id : String
  success : Bool
  output_hash : String
  error : String
deriving DecidableEq, Repr

structure ExecuteJobRequest : Type where
  job_id : String
  input_hash : String
  job_type : String
  metadata : List (String × String)
deriving DecidableEq, Repr

structure GetJobStatusResponse : Type where
  job_id : String
  status : Int
  output_hash : String
  error : String
  assigned_worker : String
deriving DecidableEq, Repr

structure JobInfo : Type where
  job_id : String
  status : Int
  input_hash : String
  output_hash : String
  assigned_worker : String
  submitted_at : Int
  completed_at : Int
deriving DecidableEq, Repr

/-! ### Scheduler operations (`src/scheduler/mod.rs`) -/

/-- `register_worker`: insert or overwrite the worker record with
`active_jobs = 0` and a fresh heartbeat timestamp. -/
def registerWorker (now : Int) (req : RegisterWorkerRequest) (st : SchedulerState) :
    SchedulerState :=
  { st with workers := (insertA req.worker_id
      { worker_id := req.worker_id, address := req.address, capacity := req.capacity,
        active_jobs := 0, last_heartbeat := now, labels := req.labels } st.workers) }

/-- `heartbeat`: refresh the timestamp and the reported load of a known worker;
a NotFound error (no mutation) for an unknown one. -/
def heartbeat (now : Int) (req : HeartbeatRequest) (st : SchedulerState) : SchedulerState :=
  match lookupA req.worker_id st.workers with
  | some _ => { st with workers := (updateA req.worker_id
      (fun w => { w with last_heartbeat := now, active_jobs := req.active_jobs }) st.workers) }
  | none => st

/-- The state mutation of `submit_job`: insert a fresh PENDING job record
(the handler then drops the lock and triggers `assign_jobs_to_workers`,
modelled as its own operation below). -/
def submitJob (now : Int) (req : SubmitJobRequest) (st : SchedulerState) : SchedulerState :=
  { st with jobs := (insertA req.job_id
      { job_id := req.job_id, input_hash := req.input_hash, output_hash := none,
        job_type := req.job_type, status := JobStatusEnum.pending, assigned_worker := none,
        submitted_at := now, completed_at := none, metadata := req.metadata } st.jobs) }

/-- The comma-joined `k=v` rendering of the metadata map computed (and then
discarded) by the assignment pass. -/
def metadataString (m : List (String × String)) : String :=
  String.intercalate "," (m.map (fun p => p.1 ++ "=" ++ p.2))

/-- The liveness sweep at the head of `assign_jobs_to_workers` and in
`list_workers`: remove every worker whose heartbeat is more than 10 seconds
old (the survivors are exactly those with `now - last_heartbeat ≤ 10`). -/
def evictStale (now : Int) (workers : List (String × WorkerMetadata)) :
    List (String × WorkerMetadata) :=
  workers.filter (fun p => decide (now - p.2.last_heartbeat ≤ 10))

/-- The pending-job list collected by the assignment pass:
`(job_id, input_hash, job_type, metadata-string)` for every PENDING job. -/
def pendingList (jobs : List (String × JobMetadata)) :
    List (String × String × String × String) :=
  (jobs.filter (fun p => decide (p.2.status = JobStatusEnum.pending))).map
    (fun p => (p.1, p.2.input_hash, p.2.job_type, metadataString p.2.metadata))

/-- The available-worker list collected by the assignment pass:
`(worker_id, address)` for every worker under capacity with a fresh heartbeat. -/
def availableList (now : Int) (workers : List (String × WorkerMetadata)) :
    List (String × String) :=
  (workers.filter (fun p =>
      decide (p.2.active_jobs < p.2.capacity ∧ now - p.2.last_heartbeat < 10))).map
    (fun p => (p.1, p.2.address))

/-- A dispatch task recorded by the assignment pass. -/
structure Assignment : Type where
  job_id : String
  input_hash : String
  job_type : String
  worker_id : String
  worker_addr : String
deriving DecidableEq, Repr

/-- One iteration of the pairing loop of `assign_jobs_to_workers`: mark the
job ASSIGNED with its worker (when the job is still in the map, which also
gates recording the dispatch task) and increment the chosen worker load. -/
def assignStep (acc : SchedulerState × List Assignment)
    (pr : (String × String × String × String) × (String × String)) :
    SchedulerState × List Assignment :=
  let jid := pr.1.1
  let wid := pr.2.1
  let found := (lookupA jid acc.1.jobs).isSome
  let jobs1 := updateA jid
    (fun j => { j with status := JobStatusEnum.assigned, assigned_worker := some wid })
    acc.1.jobs
  let asgns1 := if found
    then acc.2 ++ [{ job_id := jid, input_hash := pr.1.2.1, job_type := pr.1.2.2.1,
                     worker_id := wid, worker_addr := pr.2.2 }]
    else acc.2
  let workers1 := updateA wid
    (fun w => { w with active_jobs := w.active_jobs + 1 }) acc.1.workers
  ({ workers := workers1, jobs := jobs1 }, asgns1)

/-- `assign_jobs_to_workers`: evict stale workers, collect PENDING jobs and
available workers, and when both lists are non-empty pair them in order
(`zip`), producing the mutated state and the dispatch tasks. -/
def assignJobsToWorkers (now : Int) (st : SchedulerState) :
    SchedulerState × List Assignment :=
  let st1 : SchedulerState := { st with workers := evictStale now st.workers }
  let pending := pendingList st1.jobs
  let avail := availableList now st1.workers
  if pending.isEmpty || avail.isEmpty then (st1, [])
  else (pending.zip avail).foldl assignStep (st1, [])

/-- The first step of `dispatch_job_to_worker`: set the job RUNNING under the
write lock before issuing the RPC. -/
def dispatchStart (job_id : String) (st : SchedulerState) : SchedulerState :=
  { st with jobs := (updateA job_id
      (fun j => { j with status := JobStatusEnum.running }) st.jobs) }

/-- The `ExecuteJobRequest` built by `dispatch_job_to_worker`: the metadata
field is `HashMap::new()` in the source, i.e. always empty. -/
def buildExecuteJobRequest (job_id input_hash job_type : String) : ExecuteJobRequest :=
  { job_id := job_id, input_hash := input_hash, job_type := job_type, metadata := [] }

/-- The dispatch-failure handler in `assign_jobs_to_workers`: set the job
FAILED with `completed_at = now` and decrement the worker load (saturating);
the worker record itself is not touched otherwise. -/
def dispatchFail (now : Int) (job_id worker_id : String) (st : SchedulerState) :
    SchedulerState :=
  { st with
    jobs := updateA job_id
      (fun j => { j with status := JobStatusEnum.failed, completed_at := some now }) st.jobs,
    workers := updateA worker_id
      (fun w => { w with active_jobs := w.active_jobs - 1 }) st.workers }

/-- `get_job_status`: `none` models the NotFound status for an unknown job;
otherwise the response snapshot (whose `error` field is the literal
`String::new()` of the source). -/
def getJobStatus (job_id : String) (st : SchedulerState) : Option GetJobStatusResponse :=
  (lookupA job_id st.jobs).map (fun job =>
    { job_id := job.job_id
      status := statusToInt job.status
      output_hash := job.output_hash.getD ""
      error := ""
      assigned_worker := job.assigned_worker.getD "" })

/-- The `JobInfo` snapshot built by `list_jobs` for one job record. -/
def jobInfoOf (j : JobMetadata) : JobInfo :=
  { job_id := j.job_id, status := statusToInt j.status, input_hash := j.input_hash,
    output_hash := j.output_hash.getD "", assigned_worker := j.assigned_worker.getD "",
    submitted_at := j.submitted_at, completed_at := j.completed_at.getD 0 }

/-- `list_jobs`: snapshot all jobs, sort by `submitted_at` descending (the
source uses the standard library stable sort with comparator
`b.submitted_at.cmp(&a.submitted_at)`), then truncate when `limit > 0`. -/
def listJobs (limit : Nat) (st : SchedulerState) : List JobInfo :=
  let jobs := st.jobs.map (fun p => jobInfoOf p.2)
  let sorted := jobs.mergeSort (fun a b => decide (b.submitted_at ≤ a.submitted_at))
  if 0 < limit then sorted.take limit else sorted

/-- `report_job_result`: `none` models NotFound for an unknown job; otherwise
overwrite the job with the reported outcome, decrement the load of the
assigned worker (saturating), and acknowledge with `true`. -/
def reportJobResult (now : Int) (req : ReportJobResultRequest) (st : SchedulerState) :
    Option (SchedulerState × Bool) :=
  let worker_id := (lookupA req.job_id st.jobs).bind (fun job => job.assigned_worker)
  match lookupA req.job_id st.jobs with
  | none => none
  | some _ =>
    let jobs1 := updateA req.job_id (fun job =>
      if req.success then
        { job with status := JobStatusEnum.completed, output_hash := some req.output_hash,
                   completed_at := some now }
      else
        { job with status := JobStatusEnum.failed, completed_at := some now }) st.jobs
    let workers1 := match worker_id with
      | some wid => updateA wid (fun w => { w with active_jobs := w.active_jobs - 1 }) st.workers
      | none => st.workers
    some ({ workers := workers1, jobs := jobs1 }, true)

/-- The state change of `list_workers` (its liveness sweep). -/
def listWorkersState (now : Int) (st : SchedulerState) : SchedulerState :=
  { st with workers := evictStale now st.workers }

/-! ### Worker transformation (`src/worker/mod.rs`) -/

/-- Substring occurrence on character lists (the semantics of Rust
`str::contains` with a string pattern). -/
def containsSub (needle : List Char) : List Char → Bool
  | [] => needle.isEmpty
  | c :: cs => needle.isPrefixOf (c :: cs) || containsSub needle cs

/-- `haystack.contains(needle)` on strings. -/
def strContains (hay needle : String) : Bool := containsSub needle.data hay.data

/-- The validation in `execute_job_impl`: the input passes unless it contains
none of the tokens checked by the source. -/
def looksLikeRust (s : String) : Bool :=
  strContains s "fn " || strContains s "pub " || strContains s "use "

/-- The pure transformation of `execute_job_impl` on the decoded input text:
bail with the diagnostic message when the input fails validation, otherwise
append the compilation tag, which includes `self.worker_id`. -/
def transformOutput (input_str worker_id : String) : Except String String :=
  if looksLikeRust input_str then
    Except.ok (input_str ++ " + compiled by worker " ++ worker_id)
  else
    Except.error
      ("Input doesn\x27t appear to be valid Rust source code. Expected Rust syntax (fn, pub, use, etc.) but found: "
        ++ input_str.take 100)

/-! ### Scheduler operation traces -/

/-- The operations that mutate scheduler state, as invoked by RPC handlers and
by the dispatch path of `assign_jobs_to_workers`. -/
inductive SchedOp : Type
  | opRegisterWorker (now : Int) (req : RegisterWorkerRequest)
  | opHeartbeat (now : Int) (req : HeartbeatRequest)
  | opSubmitJob (now : Int) (req : SubmitJobRequest)
  | opAssignPass (now : Int)
  | opDispatchStart (job_id : String)
  | opDispatchFail (now : Int) (job_id : String) (worker_id : String)
  | opReportJobResult (now : Int) (req : ReportJobResultRequest)
  | opListWorkers (now : Int)
deriving Repr

/-- The state transformer of one operation. -/
def applyOp (op : SchedOp) (st : SchedulerState) : SchedulerState :=
  match op with
  | .opRegisterWorker now req => registerWorker now req st
  | .opHeartbeat now req => heartbeat now req st
  | .opSubmitJob now req => submitJob now req st
  | .opAssignPass now => (assignJobsToWorkers now st).1
  | .opDispatchStart jid => dispatchStart jid st
  | .opDispatchFail now jid wid => dispatchFail now jid wid st
  | .opReportJobResult now req => (reportJobResult now req st).elim st (fun r => r.1)
  | .opListWorkers now => listWorkersState now st

/-- Apply a sequence of operations in order. -/
def applyOps (ops : List SchedOp) (st : SchedulerState) : SchedulerState :=
  ops.foldl (fun s op => applyOp op s) st

/-- The forward order on job statuses: the reflexive-transitive closure of the
DAG PENDING → ASSIGNED → RUNNING → {COMPLETED, FAILED}. -/
def statusLe : JobStatusEnum → JobStatusEnum → Bool
  | .pending, _ => true
  | .assigned, .pending => false
  | .assigned, _ => true
  | .running, .pending => false
  | .running, .assigned => false
  | .running, _ => true
  | .completed, .completed => true
  | .completed, _ => false
  | .failed, .failed => true
  | .failed, _ => false

/-- COMPLETED and FAILED are the terminal statuses. -/
def isTerminal : JobStatusEnum → Bool
  | .completed => true
  | .failed => true
  | _ => false

/-- A scheduler state is well formed when the keys of both maps are pairwise
distinct (always true of a `HashMap`). -/
def wfState (st : SchedulerState) : Prop := keysNodup st.workers ∧ keysNodup st.jobs

/-- The operations of a well-behaved run: no re-submission of an existing
job_id, dispatch transitions only for jobs currently ASSIGNED or RUNNING, and
no report delivered for a job already terminal. -/
def opAllowed (op : SchedOp) (st : SchedulerState) : Bool :=
  match op with
  | .opSubmitJob _ req => (lookupA req.job_id st.jobs).isNone
  | .opDispatchStart jid =>
    match lookupA jid st.jobs with
    | some job => decide (job.status = JobStatusEnum.assigned ∨ job.status = JobStatusEnum.running)
    | none => true
  | .opDispatchFail _ jid _ =>
    match lookupA jid st.jobs with
    | some job => decide (job.status = JobStatusEnum.assigned ∨ job.status = JobStatusEnum.running)
    | none => true
  | .opReportJobResult _ req =>
    match lookupA req.job_id st.jobs with
    | some job => !(isTerminal job.status)
    | none => true
  | _ => true

/-- Every operation of the trace is allowed in the state where it runs. -/
def allowedTrace : SchedulerState → List SchedOp → Bool
  | _, [] => true
  | st, op :: ops => opAllowed op st && allowedTrace (applyOp op st) ops

/-- Proof-layer helper: the worker paired with a given job id by the zip of
the assignment pass (the first pair whose job id matches). -/
def pairedWorker (j : String) :
    List ((String × String × String × String) × (String × String)) → Option String
  | [] => none
  | pr :: ps => if pr.1.1 = j then some pr.2.1 else pairedWorker j ps

deriving instance DecidableEq for Except

/-! ### Concrete fixtures used to instantiate the theorems -/

/-- A live worker with spare capacity. -/
def wmW : WorkerMetadata :=
  { worker_id := "w", address := "a", capacity := 4, active_jobs := 0,
    last_heartbeat := 0, labels := [] }

/-- A freshly submitted PENDING job. -/
def jmW : JobMetadata :=
  { job_id := "j", input_hash := "i", output_hash := none, job_type := "t",
    status := JobStatusEnum.pending, assigned_worker := none, submitted_at := 0,
    completed_at := none, metadata := [] }

/-- A COMPLETED job assigned to worker `w` (the state after a first successful
report). -/
def jmDone : JobMetadata :=
  { job_id := "j", input_hash := "i", output_hash := some "h", job_type := "t",
    status := JobStatusEnum.completed, assigned_worker := some "w", submitted_at := 0,
    completed_at := some 1, metadata := [] }

/-- One live worker, one pending job. -/
def stW : SchedulerState := { workers := [("w", wmW)], jobs := [("j", jmW)] }

/-- One worker still carrying another active job, one terminal job. -/
def stDone : SchedulerState :=
  { workers := [("w", { wmW with active_jobs := 1 })], jobs := [("j", jmDone)] }

/-- No workers, one pending job. -/
def stJ : SchedulerState := { workers := [], jobs := [("j", jmW)] }

/-! ### Association-list lemmas -/

theorem lookupA_eq_some_mem {κ α : Type} [DecidableEq κ] {k : κ} {v : α} :
    ∀ {l : List (κ × α)}, lookupA k l = some v → (k, v) ∈ l := by
  intro l h
  induction l with
  | nil => simp [lookupA] at h
  | cons p ps ih =>
    by_cases hp : p.1 = k
    · simp only [lookupA, hp, if_pos] at h
      have : p = (k, v) := by
        cases p with
        | mk a b => simp_all
      simp [this]
    · simp only [lookupA, hp, if_neg, if_false] at h
      exact List.mem_cons_of_mem _ (ih h)

theorem lookupA_insertA {κ α : Type} [DecidableEq κ] (k j : κ) (v : α)
    (l : List (κ × α)) :
    lookupA j (insertA k v l) = if j = k then some v else lookupA j l := by
  induction l with
  | nil =>
    by_cases hj : j = k
    · subst hj
      simp [insertA, lookupA]
    · have hk : ¬ k = j := fun h => hj h.symm
      simp [insertA, lookupA, hj, hk]
  | cons p ps ih =>
    by_cases hp : p.1 = k
    · by_cases hj : j = k
      · subst hj
        simp [insertA, lookupA, hp]
      · have hk : ¬ k = j := fun h => hj h.symm
        have hpj : ¬ p.1 = j := by rw [hp]; exact hk
        simp [insertA, lookupA, hp, hj, hk, hpj]
    · by_cases hj : p.1 = j
      · have hjk : ¬ j = k := by rw [← hj]; exact hp
        simp [insertA, lookupA, hp, hj, hjk]
      · simp [insertA, lookupA, hp, hj, ih]

theorem lookupA_updateA {κ α : Type} [DecidableEq κ] (k j : κ) (f : α → α)
    (l : List (κ × α)) :
    lookupA j (updateA k f l) = if j = k then (lookupA k l).map f else lookupA j l := by
  induction l with
  | nil => simp [updateA, lookupA]
  | cons p ps ih =>
    by_cases hp : p.1 = k
    · by_cases hj : j = k
      · subst hj
        simp [updateA, lookupA, hp]
      · have hk : ¬ k = j := fun h => hj h.symm
        have hpj : ¬ p.1 = j := by rw [hp]; exact hk
        simp [updateA, lookupA, hp, hj, hk, hpj]
    · by_cases hj : p.1 = j
      · have hjk : ¬ j = k := by rw [← hj]; exact hp
        simp [updateA, lookupA, hp, hj, hjk]
      · simp [updateA, lookupA, hp, hj, ih]

theorem lookupA_of_mem_nodup {κ α : Type} [DecidableEq κ] {k : κ} {v : α}
    {l : List (κ × α)} (hnd : keysNodup l) (hmem : (k, v) ∈ l) :
    lookupA k l = some v := by
  induction l with
  | nil => simp at hmem
  | cons p ps ih =>
    rcases List.mem_cons.mp hmem with h | h
    · subst h
      simp [lookupA]
    · have hk : p.1 ≠ k := by
        intro he
        have : k ∈ ps.map Prod.fst := List.mem_map.mpr ⟨(k, v), h, rfl⟩
        have hnot := (List.nodup_cons.mp hnd).1
        exact hnot (he ▸ this)
      have hnd2 : keysNodup ps := (List.nodup_cons.mp hnd).2
      simp [lookupA, hk, ih hnd2 h]

theorem lookupA_filter_none {κ α : Type} [DecidableEq κ] {k : κ} {v : α}
    {l : List (κ × α)} {q : κ × α → Bool}
    (hnd : keysNodup l) (hmem : (k, v) ∈ l) (hq : q (k, v) = false) :
    lookupA k (l.filter q) = none := by
  induction l with
  | nil => simp at hmem
  | cons p ps ih =>
    have hnd2 : keysNodup ps := (List.nodup_cons.mp hnd).2
    rcases List.mem_cons.mp hmem with h | h
    · subst h
      have hnot : ∀ w, (k, w) ∉ ps := by
        intro w hw
        exact (List.nodup_cons.mp hnd).1 (List.mem_map.mpr ⟨(k, w), hw, rfl⟩)
      have : lookupA k (ps.filter q) = none := by
        cases he : lookupA k (ps.filter q) with
        | none => rfl
        | some w =>
          have := lookupA_eq_some_mem he
          exact absurd (List.mem_of_mem_filter this) (hnot w)
      simp [List.filter, hq, this]
    · have hk : p.1 ≠ k := by
        intro he
        have : k ∈ ps.map Prod.fst := List.mem_map.mpr ⟨(k, v), h, rfl⟩
        exact (List.nodup_cons.mp hnd).1 (he ▸ this)
      cases hqp : q p with
      | true => simp [List.filter, hqp, lookupA, hk, ih hnd2 h]
      | false => simp [List.filter, hqp, ih hnd2 h]

theorem keys_updateA {κ α : Type} [DecidableEq κ] (k : κ) (f : α → α)
    (l : List (κ × α)) : (updateA k f l).map Prod.fst = l.map Prod.fst := by
  induction l with
  | nil => simp [updateA]
  | cons p ps ih =>
    by_cases hp : p.1 = k
    · simp [updateA, hp]
    · simp [updateA, hp, ih]

theorem keysNodup_updateA {κ α : Type} [DecidableEq κ] (k : κ) (f : α → α)
    {l : List (κ × α)} (hnd : keysNodup l) : keysNodup (updateA k f l) := by
  unfold keysNodup
  rw [keys_updateA]
  exact hnd

theorem mem_insertA {κ α : Type} [DecidableEq κ] {pr : κ × α} {k : κ} {v : α} :
    ∀ {l : List (κ × α)}, pr ∈ insertA k v l → pr = (k, v) ∨ pr ∈ l := by
  intro l h
  induction l with
  | nil => simp [insertA] at h; exact Or.inl h
  | cons p ps ih =>
    by_cases hp : p.1 = k
    · simp only [insertA, hp, if_pos] at h
      rcases List.mem_cons.mp h with h | h
      · exact Or.inl h
      · exact Or.inr (List.mem_cons_of_mem _ h)
    · simp only [insertA, hp, if_neg, if_false] at h
      rcases List.mem_cons.mp h with h | h
      · exact Or.inr (h ▸ List.mem_cons_self _ _)
      · rcases ih h with h | h
        · exact Or.inl h
        · exact Or.inr (List.mem_cons_of_mem _ h)

theorem keysNodup_insertA {κ α : Type} [DecidableEq κ] (k : κ) (v : α)
    {l : List (κ × α)} (hnd : keysNodup l) : keysNodup (insertA k v l) := by
  induction l with
  | nil => simp [insertA, keysNodup]
  | cons p ps ih =>
    have hnd1 := (List.nodup_cons.mp hnd).1
    have hnd2 : keysNodup ps := (List.nodup_cons.mp hnd).2
    by_cases hp : p.1 = k
    · unfold keysNodup
      simp only [insertA, hp, if_pos, List.map_cons]
      exact List.nodup_cons.mpr ⟨hp ▸ hnd1, hnd2⟩
    · unfold keysNodup
      simp only [insertA, hp, if_neg, if_false, List.map_cons]
      refine List.nodup_cons.mpr ⟨?_, ih hnd2⟩
      intro hmem
      rcases List.mem_map.mp hmem with ⟨pr, hpr, hfst⟩
      rcases mem_insertA hpr with h | h
      · exact hp (by rw [← hfst, h])
      · exact hnd1 (List.mem_map.mpr ⟨pr, h, hfst⟩)

theorem keysNodup_filter {κ α : Type} [DecidableEq κ] (q : κ × α → Bool)
    {l : List (κ × α)} (hnd : keysNodup l) : keysNodup (l.filter q) := by
  unfold keysNodup
  exact ((List.filter_sublist l).map Prod.fst).nodup hnd
/-- C1: after `put(b)` returns digest `d`, `get(d)` returns exactly `b`, and a
second `put(b)` performs no new write and returns the same digest. The
hypothesis is the content-addressing invariant of the store: any blob already
sitting at the path derived for `b` is `b` itself (which holds for stores
populated by `put` under the SHA-256 collision-freeness assumption). -/
theorem cas_put_get_roundtrip_idempotent
    (sha256hex : List Nat → String) (root : List String) (store : CasStore)
    (b : List Nat)
    (hwf : ∀ pr ∈ store, pr.1 = hashToPath root (sha256hex b) → pr.2 = b) :
    casGet root (casPut sha256hex root store b).2 (casPut sha256hex root store b).1 = some b
    ∧ casPut sha256hex root (casPut sha256hex root store b).2 b
        = casPut sha256hex root store b := by
  unfold casPut casGet
  cases h : lookupA (hashToPath root (sha256hex b)) store with
  | some v =>
    have hv : v = b := hwf _ (lookupA_eq_some_mem h) rfl
    simp [h, hv]
  | none =>
    simp [h, lookupA_insertA]

/-- Concrete instance of `cas_put_get_roundtrip_idempotent` on the empty store. -/
theorem cas_put_get_roundtrip_idempotent_witness :
    (∀ pr ∈ ([] : CasStore), pr.1 = hashToPath ["r"] ((fun _ => "dig") [1, 2]) → pr.2 = [1, 2])
    ∧ casGet ["r"] (casPut (fun _ => "dig") ["r"] [] [1, 2]).2
        (casPut (fun _ => "dig") ["r"] [] [1, 2]).1 = some [1, 2]
    ∧ casPut (fun _ => "dig") ["r"] (casPut (fun _ => "dig") ["r"] [] [1, 2]).2 [1, 2]
        = casPut (fun _ => "dig") ["r"] [] [1, 2] := by
  refine ⟨by simp, ?_, ?_⟩
  · exact (cas_put_get_roundtrip_idempotent (fun _ => "dig") ["r"] [] [1, 2] (by simp)).1
  · exact (cas_put_get_roundtrip_idempotent (fun _ => "dig") ["r"] [] [1, 2] (by simp)).2

theorem utf8Width_pos (c : Char) : 1 ≤ utf8Width c := by
  unfold utf8Width
  split_ifs <;> omega

theorem length_le_utf8Len (s : List Char) : s.length ≤ utf8Len s := by
  induction s with
  | nil => simp [utf8Len]
  | cons c cs ih =>
    have := utf8Width_pos c
    simp only [List.length_cons, utf8Len]
    omega

theorem ascii_utf8Len (s : List Char)
    (h : s.all (fun c => utf8Width c = 1) = true) : utf8Len s = s.length := by
  induction s with
  | nil => rfl
  | cons c cs ih =>
    simp only [List.all_cons, Bool.and_eq_true, decide_eq_true_eq] at h
    simp only [utf8Len, List.length_cons, h.1, ih (by simpa using h.2)]
    omega

theorem ascii_byteSlicePrefix (s : List Char) (n : Nat)
    (h : s.all (fun c => utf8Width c = 1) = true) (hn : n ≤ s.length) :
    byteSlicePrefix s n = some (s.take n) := by
  induction s generalizing n with
  | nil =>
    cases n with
    | zero => rfl
    | succ m => simp at hn
  | cons c cs ih =>
    cases n with
    | zero => rfl
    | succ m =>
      simp only [List.all_cons, Bool.and_eq_true, decide_eq_true_eq] at h
      simp only [byteSlicePrefix, h.1, if_pos (by omega : 1 ≤ m + 1)]
      have hm : m + 1 - 1 = m := by omega
      rw [hm, ih m (by simpa using h.2) (by simpa using hn)]
      rfl

theorem ascii_byteDrop (s : List Char) (n : Nat)
    (h : s.all (fun c => utf8Width c = 1) = true) (hn : n ≤ s.length) :
    byteDrop s n = some (s.drop n) := by
  induction s generalizing n with
  | nil =>
    cases n with
    | zero => rfl
    | succ m => simp at hn
  | cons c cs ih =>
    cases n with
    | zero => rfl
    | succ m =>
      simp only [List.all_cons, Bool.and_eq_true, decide_eq_true_eq] at h
      simp only [byteDrop, h.1, if_pos (by omega : 1 ≤ m + 1)]
      have hm : m + 1 - 1 = m := by omega
      rw [hm, ih m (by simpa using h.2) (by simpa using hn)]
      rfl

/-- C10 (amended): the path computation is byte-based. When the digest's UTF-8
byte length is under 4 it is total: the blob is addressed at `<root>/<h>`
directly by `get_path`, `exists`, `get` and `put`. For ASCII digests (every
character one byte wide — in particular every SHA-256 hex digest) it is total
and never panics, agreeing with the character-level `hashToPath` used by the
store operations; a non-ASCII digest whose byte length reaches 4 can instead
hit the slicing panic (see the counterexample). -/
theorem hash_to_path_bytes_spec (root : List String) (h : String) (store : CasStore)
    (sha256hex : List Nat → String) (data : List Nat) :
    (utf8Len h.data < 4 →
        hashToPathBytes root h = some (root ++ [h])
        ∧ hashToPath root h = root ++ [h]
        ∧ getPath root h = root ++ [h]
        ∧ casExists root store h = (lookupA (root ++ [h]) store).isSome
        ∧ casGet root store h = lookupA (root ++ [h]) store)
    ∧ (utf8Len (sha256hex data).data < 4 →
        (casPut sha256hex root store data).1 = sha256hex data
        ∧ (casPut sha256hex root store data).2 =
            if (lookupA (root ++ [sha256hex data]) store).isSome then store
            else insertA (root ++ [sha256hex data]) data store)
    ∧ (h.data.all (fun c => utf8Width c = 1) = true →
        hashToPathBytes root h = some (hashToPath root h)) := by
  refine ⟨?_, ?_, ?_⟩
  · intro hbyte
    have hchar : h.length < 4 := by
      have := length_le_utf8Len h.data
      show h.data.length < 4
      omega
    have hp : hashToPath root h = root ++ [h] := by rw [hashToPath, if_pos hchar]
    exact ⟨by rw [hashToPathBytes, if_pos hbyte], hp, hp,
      by rw [casExists, hp], by rw [casGet, hp]⟩
  · intro hbyte
    have hchar : (sha256hex data).length < 4 := by
      have := length_le_utf8Len (sha256hex data).data
      show (sha256hex data).data.length < 4
      omega
    have hp : hashToPath root (sha256hex data) = root ++ [sha256hex data] := by
      rw [hashToPath, if_pos hchar]
    unfold casPut
    simp only [hp]
    constructor
    · split <;> rfl
    · split <;> simp_all
  · intro hascii
    by_cases hlen : utf8Len h.data < 4
    · have hchar : h.length < 4 := by
        have := length_le_utf8Len h.data
        show h.data.length < 4
        omega
      rw [hashToPathBytes, if_pos hlen, hashToPath, if_pos hchar]
    · have hlen4 : 4 ≤ h.data.length := by
        rw [← ascii_utf8Len h.data hascii]
        omega
      have hdropAscii : (h.data.drop 2).all (fun c => utf8Width c = 1) = true := by
        rw [List.all_eq_true] at hascii ⊢
        intro c hc
        exact hascii c (List.drop_subset 2 h.data hc)
      have h1 : byteSlicePrefix h.data 2 = some (h.data.take 2) :=
        ascii_byteSlicePrefix h.data 2 hascii (by omega)
      have h2 : byteDrop h.data 2 = some (h.data.drop 2) :=
        ascii_byteDrop h.data 2 hascii (by omega)
      have h3 : byteSlicePrefix (h.data.drop 2) 2 = some ((h.data.drop 2).take 2) :=
        ascii_byteSlicePrefix (h.data.drop 2) 2 hdropAscii
          (by rw [List.length_drop]; omega)
      have hchar : ¬ h.length < 4 := by
        show ¬ h.data.length < 4
        omega
      have hTake : String.mk (h.data.take 2) = h.take 2 :=
        String.ext (by rw [String.data_take])
      have hNext : String.mk ((h.data.drop 2).take 2) = (h.drop 2).take 2 :=
        String.ext (by rw [String.data_take, String.data_drop])
      rw [hashToPathBytes, if_neg hlen, h1, h2]
      simp only [Option.some_bind]
      rw [h3]
      simp only [Option.map_some']
      rw [hashToPath, if_neg hchar, hTake, hNext]

/-- C10 counterexample: the digest `€a` has 2 characters (fewer than 4) but
4 UTF-8 bytes, so the source takes the slicing branch and `&hash[0..2]` panics
(byte 2 is inside the euro sign); the path computation is neither total nor
does it address `<root>/<h>` for this short digest. -/
theorem hash_to_path_panics :
    hashToPathBytes ["r"] "€a" = none
    ∧ ("€a" : String).length < 4
    ∧ (none : Option (List String)) ≠ some (["r"] ++ ["€a"]) :=
  ⟨by decide, by decide, by decide⟩

/-! ### Assignment-pass lemmas -/

theorem zip_map_fst_sublist {α β : Type} :
    ∀ (l1 : List α) (l2 : List β), ((l1.zip l2).map Prod.fst).Sublist l1 := by
  intro l1
  induction l1 with
  | nil => intro l2; simp
  | cons a l1 ih =>
    intro l2
    cases l2 with
    | nil => simp
    | cons b l2 => simpa using (ih l2).cons₂ a

theorem zip_map_snd_sublist {α β : Type} :
    ∀ (l1 : List α) (l2 : List β), ((l1.zip l2).map Prod.snd).Sublist l2 := by
  intro l1
  induction l1 with
  | nil => intro l2; simp
  | cons a l1 ih =>
    intro l2
    cases l2 with
    | nil => simp
    | cons b l2 => simpa using (ih l2).cons₂ b

theorem pendingList_keys_sublist (jobs : List (String × JobMetadata)) :
    ((pendingList jobs).map (fun t => t.1)).Sublist (jobs.map Prod.fst) := by
  have h1 : (jobs.filter (fun p => decide (p.2.status = JobStatusEnum.pending))).Sublist jobs :=
    List.filter_sublist jobs
  have h2 := h1.map Prod.fst
  simpa [pendingList, List.map_map, Function.comp] using h2

theorem availableList_keys_sublist (now : Int) (workers : List (String × WorkerMetadata)) :
    ((availableList now workers).map (fun t => t.1)).Sublist (workers.map Prod.fst) := by
  have h1 : (workers.filter (fun p =>
      decide (p.2.active_jobs < p.2.capacity ∧ now - p.2.last_heartbeat < 10))).Sublist workers :=
    List.filter_sublist workers
  have h2 := h1.map Prod.fst
  simpa [availableList, List.map_map, Function.comp] using h2

theorem pendingList_mem {jobs : List (String × JobMetadata)}
    {t : String × String × String × String} (h : t ∈ pendingList jobs) :
    ∃ jm, (t.1, jm) ∈ jobs ∧ jm.status = JobStatusEnum.pending := by
  rcases List.mem_map.mp h with ⟨p, hp, ht⟩
  have hmem := List.mem_of_mem_filter hp
  have hstat := List.of_mem_filter hp
  refine ⟨p.2, ?_, by simpa using hstat⟩
  have : t.1 = p.1 := by rw [← ht]
  rw [this]
  exact hmem

theorem availableList_mem {now : Int} {workers : List (String × WorkerMetadata)}
    {t : String × String} (h : t ∈ availableList now workers) :
    ∃ wm, (t.1, wm) ∈ workers ∧ wm.active_jobs < wm.capacity
      ∧ now - wm.last_heartbeat < 10 := by
  rcases List.mem_map.mp h with ⟨p, hp, ht⟩
  have hmem := List.mem_of_mem_filter hp
  have hcond := List.of_mem_filter hp
  simp only [decide_eq_true_eq] at hcond
  refine ⟨p.2, ?_, hcond.1, hcond.2⟩
  have : t.1 = p.1 := by rw [← ht]
  rw [this]
  exact hmem

theorem lookupA_assignStep_jobs (acc : SchedulerState × List Assignment)
    (pr : (String × String × String × String) × (String × String)) (j : String) :
    lookupA j (assignStep acc pr).1.jobs =
      if j = pr.1.1 then
        (lookupA pr.1.1 acc.1.jobs).map (fun job =>
          { job with status := JobStatusEnum.assigned, assigned_worker := some pr.2.1 })
      else lookupA j acc.1.jobs := by
  simp [assignStep, lookupA_updateA]

theorem lookupA_assignStep_workers (acc : SchedulerState × List Assignment)
    (pr : (String × String × String × String) × (String × String)) (w : String) :
    lookupA w (assignStep acc pr).1.workers =
      if w = pr.2.1 then
        (lookupA pr.2.1 acc.1.workers).map (fun wk =>
          { wk with active_jobs := wk.active_jobs + 1 })
      else lookupA w acc.1.workers := by
  simp [assignStep, lookupA_updateA]

theorem pairedWorker_eq_none_of_not_mem {j : String}
    {ps : List ((String × String × String × String) × (String × String))}
    (h : j ∉ ps.map (fun pr => pr.1.1)) : pairedWorker j ps = none := by
  induction ps with
  | nil => rfl
  | cons pr ps ih =>
    simp only [List.map_cons, List.mem_cons] at h
    push_neg at h
    have hne : ¬ pr.1.1 = j := fun he => h.1 he.symm
    simp [pairedWorker, hne, ih h.2]

theorem lookupA_foldAssign_jobs :
    ∀ (ps : List ((String × String × String × String) × (String × String)))
      (acc : SchedulerState × List Assignment) (j : String),
      (ps.map (fun pr => pr.1.1)).Nodup →
      lookupA j (ps.foldl assignStep acc).1.jobs =
        match pairedWorker j ps with
        | some wid => (lookupA j acc.1.jobs).map (fun job =>
            { job with status := JobStatusEnum.assigned, assigned_worker := some wid })
        | none => lookupA j acc.1.jobs := by
  intro ps
  induction ps with
  | nil => intro acc j _; rfl
  | cons pr ps ih =>
    intro acc j hnd
    have hnd1 : pr.1.1 ∉ ps.map (fun q => q.1.1) := (List.nodup_cons.mp hnd).1
    have hnd2 : (ps.map (fun q => q.1.1)).Nodup := (List.nodup_cons.mp hnd).2
    rw [List.foldl_cons, ih (assignStep acc pr) j hnd2]
    by_cases hj : pr.1.1 = j
    · subst hj
      have hnone : pairedWorker pr.1.1 ps = none := pairedWorker_eq_none_of_not_mem hnd1
      simp [pairedWorker, hnone, lookupA_assignStep_jobs]
    · have hne : ¬ j = pr.1.1 := fun he => hj he.symm
      simp only [pairedWorker, hj, if_neg, if_false]
      cases hpw : pairedWorker j ps with
      | some wid => simp [lookupA_assignStep_jobs, hne]
      | none => simp [lookupA_assignStep_jobs, hne]

theorem lookupA_foldAssign_workers :
    ∀ (ps : List ((String × String × String × String) × (String × String)))
      (acc : SchedulerState × List Assignment) (w : String),
      (ps.map (fun pr => pr.2.1)).Nodup →
      lookupA w (ps.foldl assignStep acc).1.workers =
        if w ∈ ps.map (fun pr => pr.2.1) then
          (lookupA w acc.1.workers).map (fun wk =>
            { wk with active_jobs := wk.active_jobs + 1 })
        else lookupA w acc.1.workers := by
  intro ps
  induction ps with
  | nil => intro acc w _; simp
  | cons pr ps ih =>
    intro acc w hnd
    have hnd1 : pr.2.1 ∉ ps.map (fun q => q.2.1) := (List.nodup_cons.mp hnd).1
    have hnd2 : (ps.map (fun q => q.2.1)).Nodup := (List.nodup_cons.mp hnd).2
    rw [List.foldl_cons, ih (assignStep acc pr) w hnd2]
    by_cases hw : w = pr.2.1
    · have hnot : w ∉ ps.map (fun q => q.2.1) := by rw [hw]; exact hnd1
      rw [if_neg hnot, lookupA_assignStep_workers, if_pos hw]
      have hmem : w ∈ (pr :: ps).map (fun q => q.2.1) := by
        rw [List.map_cons]
        exact hw ▸ List.mem_cons_self _ _
      rw [if_pos hmem, hw]
    · have hstep : lookupA w (assignStep acc pr).1.workers = lookupA w acc.1.workers := by
        rw [lookupA_assignStep_workers, if_neg hw]
      by_cases hmem : w ∈ ps.map (fun q => q.2.1)
      · have hmem2 : w ∈ (pr :: ps).map (fun q => q.2.1) := by
          rw [List.map_cons]
          exact List.mem_cons_of_mem _ hmem
        rw [if_pos hmem, if_pos hmem2, hstep]
      · have hmem2 : w ∉ (pr :: ps).map (fun q => q.2.1) := by
          rw [List.map_cons]
          intro hc
          rcases List.mem_cons.mp hc with h | h
          · exact hw h
          · exact hmem h
        rw [if_neg hmem, if_neg hmem2, hstep]

theorem pairedWorker_of_mem_nodup
    {ps : List ((String × String × String × String) × (String × String))}
    {pr : (String × String × String × String) × (String × String)}
    (hnd : (ps.map (fun q => q.1.1)).Nodup) (hmem : pr ∈ ps) :
    pairedWorker pr.1.1 ps = some pr.2.1 := by
  induction ps with
  | nil => simp at hmem
  | cons q qs ih =>
    have hnd1 : q.1.1 ∉ qs.map (fun r => r.1.1) := (List.nodup_cons.mp hnd).1
    have hnd2 : (qs.map (fun r => r.1.1)).Nodup := (List.nodup_cons.mp hnd).2
    rcases List.mem_cons.mp hmem with h | h
    · subst h
      simp [pairedWorker]
    · have hne : ¬ q.1.1 = pr.1.1 := by
        intro he
        exact hnd1 (he ▸ List.mem_map.mpr ⟨pr, h, rfl⟩)
      simp [pairedWorker, hne, ih hnd2 h]

/-- C7: every assignment pass first evicts every worker whose heartbeat is more
than 10 seconds old; each (pending job, available worker) pair produced by the
zip is assigned: the job becomes ASSIGNED to that worker and the worker load
grows by one; and whenever both lists are non-empty at least one job is
assigned. -/
theorem assign_pass_spec (now : Int) (st : SchedulerState) (hwf : wfState st) :
    (∀ pr ∈ st.workers, 10 < now - pr.2.last_heartbeat →
        lookupA pr.1 (assignJobsToWorkers now st).1.workers = none)
    ∧ (∀ pr ∈ (pendingList st.jobs).zip (availableList now (evictStale now st.workers)),
        ∃ job wk,
          lookupA pr.1.1 st.jobs = some job
          ∧ job.status = JobStatusEnum.pending
          ∧ lookupA pr.1.1 (assignJobsToWorkers now st).1.jobs
              = some { job with status := JobStatusEnum.assigned, assigned_worker := some pr.2.1 }
          ∧ lookupA pr.2.1 (evictStale now st.workers) = some wk
          ∧ wk.active_jobs < wk.capacity
          ∧ now - wk.last_heartbeat < 10
          ∧ lookupA pr.2.1 (assignJobsToWorkers now st).1.workers
              = some { wk with active_jobs := wk.active_jobs + 1 })
    ∧ (pendingList st.jobs ≠ [] → availableList now (evictStale now st.workers) ≠ [] →
        ∃ j wid job, lookupA j st.jobs = some job ∧ job.status = JobStatusEnum.pending
          ∧ lookupA j (assignJobsToWorkers now st).1.jobs
              = some { job with status := JobStatusEnum.assigned, assigned_worker := some wid }) := by
  obtain ⟨hwfw, hwfj⟩ := hwf
  have kEv : keysNodup (evictStale now st.workers) := keysNodup_filter _ hwfw
  have hpk : ((pendingList st.jobs).map (fun t => t.1)).Nodup :=
    (pendingList_keys_sublist st.jobs).nodup hwfj
  have hak : ((availableList now (evictStale now st.workers)).map (fun t => t.1)).Nodup :=
    (availableList_keys_sublist now (evictStale now st.workers)).nodup kEv
  set ps := (pendingList st.jobs).zip (availableList now (evictStale now st.workers)) with hps
  have hpsk : (ps.map (fun pr => pr.1.1)).Nodup := by
    have h1 : ((ps.map Prod.fst).map (fun t => t.1)).Sublist
        ((pendingList st.jobs).map (fun t => t.1)) :=
      (zip_map_fst_sublist _ _).map _
    have h2 := h1.nodup hpk
    simpa [List.map_map] using h2
  have hask : (ps.map (fun pr => pr.2.1)).Nodup := by
    have h1 : ((ps.map Prod.snd).map (fun t => t.1)).Sublist
        ((availableList now (evictStale now st.workers)).map (fun t => t.1)) :=
      (zip_map_snd_sublist _ _).map _
    have h2 := h1.nodup hak
    simpa [List.map_map] using h2
  have hres : assignJobsToWorkers now st =
      if (pendingList st.jobs).isEmpty
          || (availableList now (evictStale now st.workers)).isEmpty
        then ({ st with workers := evictStale now st.workers }, ([] : List Assignment))
        else ps.foldl assignStep ({ st with workers := evictStale now st.workers }, []) := rfl
  have hpair : ∀ pr ∈ ps,
      ∃ job wk,
        lookupA pr.1.1 st.jobs = some job
        ∧ job.status = JobStatusEnum.pending
        ∧ lookupA pr.1.1 (assignJobsToWorkers now st).1.jobs
            = some { job with status := JobStatusEnum.assigned, assigned_worker := some pr.2.1 }
        ∧ lookupA pr.2.1 (evictStale now st.workers) = some wk
        ∧ wk.active_jobs < wk.capacity
        ∧ now - wk.last_heartbeat < 10
        ∧ lookupA pr.2.1 (assignJobsToWorkers now st).1.workers
            = some { wk with active_jobs := wk.active_jobs + 1 } := by
    intro pr hpr
    have hz : pr.1 ∈ pendingList st.jobs ∧ pr.2 ∈ availableList now (evictStale now st.workers) := by
      have : (pr.1, pr.2) ∈ ps := by simpa using hpr
      exact List.of_mem_zip this
    obtain ⟨jm, hjmem, hjstat⟩ := pendingList_mem hz.1
    obtain ⟨wm, hwmem, hwcap, hwfresh⟩ := availableList_mem hz.2
    have hjlook : lookupA pr.1.1 st.jobs = some jm := lookupA_of_mem_nodup hwfj hjmem
    have hwlook : lookupA pr.2.1 (evictStale now st.workers) = some wm :=
      lookupA_of_mem_nodup kEv hwmem
    have hne : ((pendingList st.jobs).isEmpty
        || (availableList now (evictStale now st.workers)).isEmpty) = false := by
      cases hp : pendingList st.jobs with
      | nil => rw [hp] at hz; simp at hz
      | cons a l =>
        cases ha : availableList now (evictStale now st.workers) with
        | nil => rw [ha] at hz; simp at hz
        | cons b m => simp
    refine ⟨jm, wm, hjlook, hjstat, ?_, hwlook, hwcap, hwfresh, ?_⟩
    · rw [hres, if_neg (by rw [hne]; simp)]
      rw [lookupA_foldAssign_jobs ps _ _ hpsk]
      rw [pairedWorker_of_mem_nodup hpsk hpr]
      simp only [hjlook]
      rfl
    · rw [hres, if_neg (by rw [hne]; simp)]
      rw [lookupA_foldAssign_workers ps _ _ hask]
      rw [if_pos (List.mem_map.mpr ⟨pr, hpr, rfl⟩)]
      simp only [hwlook]
      rfl
  refine ⟨?_, hpair, ?_⟩
  · intro pr hpr hstale
    have hq : (fun p : String × WorkerMetadata =>
        decide (now - p.2.last_heartbeat ≤ 10)) pr = false := by
      simp only [decide_eq_false_iff_not]
      omega
    have hgone : lookupA pr.1 (evictStale now st.workers) = none := by
      have := lookupA_filter_none (q := fun p : String × WorkerMetadata =>
        decide (now - p.2.last_heartbeat ≤ 10)) hwfw ?hm hq
      · exact this
      · cases pr with
        | mk a b => exact hpr
    rw [hres]
    by_cases hif : ((pendingList st.jobs).isEmpty
        || (availableList now (evictStale now st.workers)).isEmpty) = true
    · rw [if_pos hif]
      exact hgone
    · rw [if_neg hif]
      rw [lookupA_foldAssign_workers ps _ _ hask]
      by_cases hmem : pr.1 ∈ ps.map (fun q => q.2.1)
      · rw [if_pos hmem, hgone]
        rfl
      · rw [if_neg hmem]
        exact hgone
  · intro hp ha
    cases hpl : pendingList st.jobs with
    | nil => exact absurd hpl hp
    | cons a l =>
      cases hal : availableList now (evictStale now st.workers) with
      | nil => exact absurd hal ha
      | cons b m =>
        have hmem : (a, b) ∈ ps := by
          rw [hps, hpl, hal]
          exact List.mem_cons_self _ _
        obtain ⟨job, wk, h1, h2, h3, _⟩ := hpair (a, b) hmem
        exact ⟨a.1, b.1, job, h1, h2, h3⟩

/-- Concrete instance of `assign_pass_spec`: one pending job and one live
worker yield an assignment. -/
theorem assign_pass_spec_witness :
    wfState stW
    ∧ pendingList stW.jobs ≠ []
    ∧ availableList 3 (evictStale 3 stW.workers) ≠ []
    ∧ ∃ (j wid : String) (job : JobMetadata),
        lookupA j stW.jobs = some job ∧ job.status = JobStatusEnum.pending
        ∧ lookupA j (assignJobsToWorkers 3 stW).1.jobs
            = some { job with status := JobStatusEnum.assigned,
                              assigned_worker := some wid } := by
  have hwf : wfState stW := by
    constructor
    · show (stW.workers.map Prod.fst).Nodup
      decide
    · show (stW.jobs.map Prod.fst).Nodup
      decide
  have hp : pendingList stW.jobs ≠ [] := by decide
  have ha : availableList 3 (evictStale 3 stW.workers) ≠ [] := by decide
  exact ⟨hwf, hp, ha, (assign_pass_spec 3 stW hwf).2.2 hp ha⟩

/-! ### Job-status monotonicity -/

theorem statusLe_refl (s : JobStatusEnum) : statusLe s s = true := by
  cases s <;> rfl

theorem statusLe_trans (a b c : JobStatusEnum) :
    statusLe a b = true → statusLe b c = true → statusLe a c = true := by
  cases a <;> cases b <;> cases c <;> decide

theorem pairedWorker_eq_some_mem {j wid : String}
    {ps : List ((String × String × String × String) × (String × String))} :
    pairedWorker j ps = some wid → ∃ pr ∈ ps, pr.1.1 = j ∧ pr.2.1 = wid := by
  intro h
  induction ps with
  | nil => simp [pairedWorker] at h
  | cons q qs ih =>
    by_cases hq : q.1.1 = j
    · simp only [pairedWorker, hq, if_pos] at h
      exact ⟨q, List.mem_cons_self _ _, hq, by injection h⟩
    · simp only [pairedWorker, hq, if_neg, if_false] at h
      obtain ⟨pr, hmem, hj, hw⟩ := ih h
      exact ⟨pr, List.mem_cons_of_mem _ hmem, hj, hw⟩

theorem zip_pending_keys_nodup (jobs : List (String × JobMetadata))
    (avail : List (String × String)) (hwfj : keysNodup jobs) :
    (((pendingList jobs).zip avail).map (fun pr => pr.1.1)).Nodup := by
  have h1 : ((((pendingList jobs).zip avail).map Prod.fst).map (fun t => t.1)).Sublist
      ((pendingList jobs).map (fun t => t.1)) :=
    (zip_map_fst_sublist _ _).map _
  have h2 := h1.nodup ((pendingList_keys_sublist jobs).nodup hwfj)
  simpa [List.map_map] using h2

theorem keys_foldAssign :
    ∀ (ps : List ((String × String × String × String) × (String × String)))
      (acc : SchedulerState × List Assignment),
      (ps.foldl assignStep acc).1.jobs.map Prod.fst = acc.1.jobs.map Prod.fst
      ∧ (ps.foldl assignStep acc).1.workers.map Prod.fst = acc.1.workers.map Prod.fst := by
  intro ps
  induction ps with
  | nil => intro acc; exact ⟨rfl, rfl⟩
  | cons pr ps ih =>
    intro acc
    rw [List.foldl_cons]
    refine ⟨?_, ?_⟩
    · rw [(ih (assignStep acc pr)).1]
      exact keys_updateA _ _ _
    · rw [(ih (assignStep acc pr)).2]
      exact keys_updateA _ _ _

theorem reportJobResult_eq_none (now : Int) (req : ReportJobResultRequest)
    (st : SchedulerState) (hx : lookupA req.job_id st.jobs = none) :
    reportJobResult now req st = none := by
  simp [reportJobResult, hx]

theorem reportJobResult_eq_some (now : Int) (req : ReportJobResultRequest)
    (st : SchedulerState) (job : JobMetadata)
    (hx : lookupA req.job_id st.jobs = some job) :
    reportJobResult now req st = some (
      { workers :=
          match job.assigned_worker with
          | some wid =>
            updateA wid (fun w => { w with active_jobs := w.active_jobs - 1 }) st.workers
          | none => st.workers,
        jobs := updateA req.job_id (fun j =>
          if req.success then
            { j with status := JobStatusEnum.completed, output_hash := some req.output_hash,
                     completed_at := some now }
          else
            { j with status := JobStatusEnum.failed, completed_at := some now }) st.jobs },
      true) := by
  simp [reportJobResult, hx]

theorem wfState_applyOp (op : SchedOp) (st : SchedulerState) (hwf : wfState st) :
    wfState (applyOp op st) := by
  obtain ⟨hw, hj⟩ := hwf
  cases op with
  | opRegisterWorker now req =>
    exact ⟨keysNodup_insertA _ _ hw, hj⟩
  | opHeartbeat now req =>
    simp only [applyOp, heartbeat]
    cases lookupA req.worker_id st.workers with
    | some w => exact ⟨keysNodup_updateA _ _ hw, hj⟩
    | none => exact ⟨hw, hj⟩
  | opSubmitJob now req =>
    exact ⟨hw, keysNodup_insertA _ _ hj⟩
  | opAssignPass now =>
    simp only [applyOp, assignJobsToWorkers]
    by_cases hif : ((pendingList st.jobs).isEmpty
        || (availableList now (evictStale now st.workers)).isEmpty) = true
    · rw [if_pos hif]
      exact ⟨keysNodup_filter _ hw, hj⟩
    · rw [if_neg hif]
      constructor
      · unfold keysNodup
        rw [(keys_foldAssign _ _).2]
        exact keysNodup_filter _ hw
      · unfold keysNodup
        rw [(keys_foldAssign _ _).1]
        exact hj
  | opDispatchStart jid =>
    exact ⟨hw, keysNodup_updateA _ _ hj⟩
  | opDispatchFail now jid wid =>
    exact ⟨keysNodup_updateA _ _ hw, keysNodup_updateA _ _ hj⟩
  | opReportJobResult now req =>
    simp only [applyOp]
    cases hx : lookupA req.job_id st.jobs with
    | none =>
      rw [reportJobResult_eq_none now req st hx]
      exact ⟨hw, hj⟩
    | some job =>
      rw [reportJobResult_eq_some now req st job hx]
      cases hb : job.assigned_worker with
      | some wid =>
        simp only [hb, Option.elim]
        exact ⟨keysNodup_updateA _ _ hw, keysNodup_updateA _ _ hj⟩
      | none =>
        simp only [hb, Option.elim]
        exact ⟨hw, keysNodup_updateA _ _ hj⟩
  | opListWorkers now =>
    exact ⟨keysNodup_filter _ hw, hj⟩

theorem applyOp_status_step (op : SchedOp) (st : SchedulerState) (j : String)
    (job : JobMetadata) (hwf : wfState st) (hop : opAllowed op st = true)
    (h : lookupA j st.jobs = some job) :
    ∃ job', lookupA j (applyOp op st).jobs = some job'
      ∧ statusLe job.status job'.status = true := by
  cases op with
  | opRegisterWorker now req =>
    exact ⟨job, h, statusLe_refl _⟩
  | opHeartbeat now req =>
    simp only [applyOp, heartbeat]
    cases lookupA req.worker_id st.workers with
    | some w => exact ⟨job, h, statusLe_refl _⟩
    | none => exact ⟨job, h, statusLe_refl _⟩
  | opListWorkers now =>
    exact ⟨job, h, statusLe_refl _⟩
  | opSubmitJob now req =>
    simp only [opAllowed, Option.isNone_iff_eq_none] at hop
    have hne : ¬ j = req.job_id := by
      intro he
      rw [he, hop] at h
      exact Option.noConfusion h
    refine ⟨job, ?_, statusLe_refl _⟩
    simp only [applyOp, submitJob]
    rw [lookupA_insertA, if_neg hne]
    exact h
  | opDispatchStart jid =>
    by_cases hj : j = jid
    · subst hj
      simp only [opAllowed, h, decide_eq_true_eq] at hop
      refine ⟨{ job with status := JobStatusEnum.running }, ?_, ?_⟩
      · simp only [applyOp, dispatchStart]
        rw [lookupA_updateA, if_pos rfl, h]
        rfl
      · rcases hop with hs | hs <;> rw [hs] <;> rfl
    · refine ⟨job, ?_, statusLe_refl _⟩
      simp only [applyOp, dispatchStart]
      rw [lookupA_updateA, if_neg hj]
      exact h
  | opDispatchFail now jid wid =>
    by_cases hj : j = jid
    · subst hj
      simp only [opAllowed, h, decide_eq_true_eq] at hop
      refine ⟨{ job with status := JobStatusEnum.failed, completed_at := some now }, ?_, ?_⟩
      · simp only [applyOp, dispatchFail]
        rw [lookupA_updateA, if_pos rfl, h]
        rfl
      · rcases hop with hs | hs <;> rw [hs] <;> rfl
    · refine ⟨job, ?_, statusLe_refl _⟩
      simp only [applyOp, dispatchFail]
      rw [lookupA_updateA, if_neg hj]
      exact h
  | opReportJobResult now req =>
    simp only [applyOp]
    cases hx : lookupA req.job_id st.jobs with
    | none =>
      rw [reportJobResult_eq_none now req st hx]
      exact ⟨job, h, statusLe_refl _⟩
    | some job0 =>
      rw [reportJobResult_eq_some now req st job0 hx]
      simp only [Option.elim]
      by_cases hj : j = req.job_id
      · have hjob : job0 = job := by
          rw [hj] at h
          rw [hx] at h
          exact Option.some.inj h
        subst hjob
        simp only [opAllowed, hx] at hop
        have hterm : isTerminal job0.status = false := by
          cases hi : isTerminal job0.status
          · rfl
          · rw [hi] at hop
            exact absurd hop (by decide)
        refine ⟨if req.success then
            { job0 with status := JobStatusEnum.completed, output_hash := some req.output_hash,
                        completed_at := some now }
          else { job0 with status := JobStatusEnum.failed, completed_at := some now }, ?_, ?_⟩
        · rw [lookupA_updateA, if_pos hj]
          rw [hj] at h
          rw [h]
          cases req.success <;> rfl
        · cases req.success <;> cases hs : job0.status <;>
            simp [hs, isTerminal] at hterm ⊢ <;> rfl
      · refine ⟨job, ?_, statusLe_refl _⟩
        rw [lookupA_updateA, if_neg hj]
        exact h
  | opAssignPass now =>
    simp only [applyOp, assignJobsToWorkers]
    by_cases hif : ((pendingList st.jobs).isEmpty
        || (availableList now (evictStale now st.workers)).isEmpty) = true
    · rw [if_pos hif]
      exact ⟨job, h, statusLe_refl _⟩
    · rw [if_neg hif]
      rw [lookupA_foldAssign_jobs _ _ _ (zip_pending_keys_nodup st.jobs _ hwf.2)]
      cases hpw : pairedWorker j
          ((pendingList st.jobs).zip (availableList now (evictStale now st.workers))) with
      | none => exact ⟨job, h, statusLe_refl _⟩
      | some wid =>
        obtain ⟨pr, hmem, hkey, hwid⟩ := pairedWorker_eq_some_mem hpw
        have hz : pr.1 ∈ pendingList st.jobs := (List.of_mem_zip (by simpa using hmem)).1
        obtain ⟨jm, hjmem, hjstat⟩ := pendingList_mem hz
        have hjlook : lookupA pr.1.1 st.jobs = some jm := lookupA_of_mem_nodup hwf.2 hjmem
        have hjm : jm = job := by
          rw [hkey] at hjlook
          rw [h] at hjlook
          exact (Option.some.inj hjlook).symm
        refine ⟨{ job with status := JobStatusEnum.assigned, assigned_worker := some wid },
          ?_, ?_⟩
        · rw [h]
          rfl
        · rw [← hjm, hjstat]
          rfl

/-- C3 (amended): in runs where no SubmitJob reuses an existing job_id, the
dispatch transitions touch only jobs currently ASSIGNED or RUNNING, and no
report is delivered for a job already terminal, every job status moves only
forward along PENDING → ASSIGNED → RUNNING → {COMPLETED, FAILED}, and a
terminal state is never replaced. -/
theorem job_status_monotonic :
    ∀ (ops : List SchedOp) (st : SchedulerState) (j : String) (job job' : JobMetadata),
      wfState st → allowedTrace st ops = true →
      lookupA j st.jobs = some job →
      lookupA j (applyOps ops st).jobs = some job' →
      statusLe job.status job'.status = true := by
  intro ops
  induction ops with
  | nil =>
    intro st j job job' _ _ h1 h2
    have : job = job' := by
      have h2' : lookupA j st.jobs = some job' := h2
      rw [h1] at h2'
      exact Option.some.inj h2'
    rw [this]
    exact statusLe_refl _
  | cons op ops ih =>
    intro st j job job' hwf hall h1 h2
    rw [allowedTrace, Bool.and_eq_true] at hall
    obtain ⟨jobm, hm, hstep⟩ := applyOp_status_step op st j job hwf hall.1 h1
    exact statusLe_trans _ _ _ hstep
      (ih (applyOp op st) j jobm job' (wfState_applyOp op st hwf) hall.2 hm h2)

/-- Concrete instance of `job_status_monotonic`: a pending job completed by a
single (first) report moves forward. -/
theorem job_status_monotonic_witness :
    wfState stJ
    ∧ allowedTrace stJ [SchedOp.opReportJobResult 1
        { job_id := "j", success := true, output_hash := "h", error := "" }] = true
    ∧ statusLe jmW.status
        ({ jmW with status := JobStatusEnum.completed, output_hash := some "h",
                    completed_at := some 1 } : JobMetadata).status = true := by
  have hwf : wfState stJ := by
    constructor
    · show (stJ.workers.map Prod.fst).Nodup
      decide
    · show (stJ.jobs.map Prod.fst).Nodup
      decide
  refine ⟨hwf, by decide, ?_⟩
  exact job_status_monotonic
    [SchedOp.opReportJobResult 1 { job_id := "j", success := true, output_hash := "h", error := "" }]
    stJ "j" jmW _ hwf (by decide) (by decide) (by decide)

/-- C3 counterexample: a second, conflicting ReportJobResult moves a job from
the terminal state COMPLETED to the other terminal state FAILED, a transition
outside the forward DAG. -/
theorem job_status_reversal_counterexample :
    (lookupA "j" (applyOps
        [SchedOp.opSubmitJob 0 { job_id := "j", input_hash := "i", job_type := "t", metadata := [] },
         SchedOp.opReportJobResult 1 { job_id := "j", success := true, output_hash := "h", error := "" }]
        { workers := [], jobs := [] }).jobs).map (fun jm => jm.status)
      = some JobStatusEnum.completed
    ∧ (lookupA "j" (applyOps
        [SchedOp.opSubmitJob 0 { job_id := "j", input_hash := "i", job_type := "t", metadata := [] },
         SchedOp.opReportJobResult 1 { job_id := "j", success := true, output_hash := "h", error := "" },
         SchedOp.opReportJobResult 2 { job_id := "j", success := false, output_hash := "", error := "boom" }]
        { workers := [], jobs := [] }).jobs).map (fun jm => jm.status)
      = some JobStatusEnum.failed
    ∧ statusLe JobStatusEnum.completed JobStatusEnum.failed = false :=
  ⟨by decide, by decide, by decide⟩

/-! ### Duplicate result reports -/

/-- C2 (amended): a second ReportJobResult for a job already terminal is still
acknowledged with `true`, but it re-applies the report instead of being a
no-op: on a success report the status becomes COMPLETED with `output_hash` and
`completed_at` overwritten from the new report; on a failure report the status
becomes FAILED and `completed_at` is overwritten while `output_hash` is left
unchanged; in both cases the assigned worker load is decremented again
(saturating at zero). -/
theorem report_duplicate_reapplies
    (now : Int) (req : ReportJobResultRequest) (st : SchedulerState)
    (job : JobMetadata) (wid : String) (wk : WorkerMetadata)
    (hjob : lookupA req.job_id st.jobs = some job)
    (_hterm : isTerminal job.status = true)
    (hw : job.assigned_worker = some wid)
    (hwk : lookupA wid st.workers = some wk) :
    ∃ st', reportJobResult now req st = some (st', true)
      ∧ lookupA req.job_id st'.jobs = some (if req.success then
            { job with status := JobStatusEnum.completed, output_hash := some req.output_hash,
                       completed_at := some now }
          else { job with status := JobStatusEnum.failed, completed_at := some now })
      ∧ lookupA wid st'.workers = some { wk with active_jobs := wk.active_jobs - 1 } := by
  refine ⟨_, reportJobResult_eq_some now req st job hjob, ?_, ?_⟩
  · rw [lookupA_updateA, if_pos rfl, hjob]
    cases req.success <;> rfl
  · simp only [hw]
    rw [lookupA_updateA, if_pos rfl, hwk]
    rfl

/-- Concrete instance of `report_duplicate_reapplies` on `stDone`. -/
theorem report_duplicate_reapplies_witness :
    lookupA "j" stDone.jobs = some jmDone
    ∧ isTerminal jmDone.status = true
    ∧ jmDone.assigned_worker = some "w"
    ∧ lookupA "w" stDone.workers = some { wmW with active_jobs := 1 }
    ∧ ∃ st', reportJobResult 5 { job_id := "j", success := true, output_hash := "h", error := "" }
          stDone = some (st', true)
        ∧ lookupA "j" st'.jobs = some ({ jmDone with
            status := JobStatusEnum.completed,
            output_hash := some "h", completed_at := some 5 })
        ∧ lookupA "w" st'.workers = some { wmW with active_jobs := 0 } :=
  ⟨by decide, by decide, by decide, by decide,
    report_duplicate_reapplies 5
      { job_id := "j", success := true, output_hash := "h", error := "" }
      stDone jmDone "w" { wmW with active_jobs := 1 }
      (by decide) (by decide) (by decide) (by decide)⟩

/-- C2 counterexample: re-delivering the very same successful report to the
already COMPLETED job of `stDone` changes the scheduler state (the worker load
drops from 1 to 0 and `completed_at` is overwritten), against the claim that
the state is left unchanged. -/
theorem report_duplicate_changes_state :
    (reportJobResult 5 { job_id := "j", success := true, output_hash := "h", error := "" }
        stDone).isSome = true
    ∧ reportJobResult 5 { job_id := "j", success := true, output_hash := "h", error := "" }
        stDone ≠ some (stDone, true) :=
  ⟨by decide, by decide⟩

/-! ### Dispatch request, job snapshots, listings -/

/-- C4 (amended): the ExecuteJob request built by the dispatch handler always
carries an empty metadata map, whatever metadata the job was submitted with
(the source passes `HashMap::new()` and discards the collected metadata). -/
theorem dispatch_request_metadata_empty (job_id input_hash job_type : String) :
    (buildExecuteJobRequest job_id input_hash job_type).metadata = [] := rfl

/-- C4 counterexample: a job submitted with metadata `[("k", "v")]` keeps that
metadata in the scheduler state, yet the request dispatched for it carries the
empty map, so the metadata is not transported verbatim. -/
theorem dispatch_request_drops_metadata :
    (lookupA "j" (applyOp (SchedOp.opSubmitJob 0
        { job_id := "j", input_hash := "i", job_type := "t", metadata := [("k", "v")] })
        { workers := [], jobs := [] }).jobs).map (fun jm => jm.metadata) = some [("k", "v")]
    ∧ (buildExecuteJobRequest "j" "i" "t").metadata = []
    ∧ ([] : List (String × String)) ≠ [("k", "v")] :=
  ⟨by decide, rfl, by decide⟩

/-- C5 (amended): GetJobStatus is NotFound exactly for unknown jobs; for a
known job it returns the snapshot, whose `error` field is always the empty
string (the scheduler never records the reported failure text). -/
theorem get_job_status_spec (job_id : String) (st : SchedulerState) :
    (lookupA job_id st.jobs = none → getJobStatus job_id st = none)
    ∧ (∀ job, lookupA job_id st.jobs = some job →
        getJobStatus job_id st = some
          { job_id := job.job_id, status := statusToInt job.status,
            output_hash := job.output_hash.getD "", error := "",
            assigned_worker := job.assigned_worker.getD "" }) := by
  constructor
  · intro h
    simp [getJobStatus, h]
  · intro job h
    simp [getJobStatus, h]

/-- Concrete instance of `get_job_status_spec` on `stDone`. -/
theorem get_job_status_spec_witness :
    lookupA "j" stDone.jobs = some jmDone
    ∧ getJobStatus "j" stDone = some
        { job_id := "j", status := 3, output_hash := "h", error := "",
          assigned_worker := "w" } :=
  ⟨by decide, (get_job_status_spec "j" stDone).2 jmDone (by decide)⟩

/-- C5 counterexample: a job that FAILED with reported error text `boom`
snapshots with status 4 (FAILED) but an empty error string: the recorded
failure text is never returned. -/
theorem get_job_status_error_empty :
    (getJobStatus "j" (applyOps
        [SchedOp.opSubmitJob 0 { job_id := "j", input_hash := "i", job_type := "t", metadata := [] },
         SchedOp.opReportJobResult 1 { job_id := "j", success := false, output_hash := "", error := "boom" }]
        { workers := [], jobs := [] })).map (fun r => (r.status, r.error)) = some (4, "")
    ∧ ("" : String) ≠ "boom" :=
  ⟨by decide, by decide⟩

/-- C6: ListJobs returns the snapshot sorted by `submitted_at` descending;
`limit = 0` returns all jobs (a permutation of the full snapshot) and
`limit = k > 0` returns at most `k` jobs, the prefix of the sorted list, each
submitted no earlier than anything it cuts off. -/
theorem list_jobs_spec (limit : Nat) (st : SchedulerState) :
    List.Pairwise (fun a b => b.submitted_at ≤ a.submitted_at) (listJobs limit st)
    ∧ (limit = 0 → (listJobs limit st).Perm (st.jobs.map (fun p => jobInfoOf p.2)))
    ∧ (0 < limit →
        (listJobs limit st).length ≤ limit
        ∧ listJobs limit st = (listJobs 0 st).take limit
        ∧ ∀ a ∈ listJobs limit st, ∀ b ∈ (listJobs 0 st).drop limit,
            b.submitted_at ≤ a.submitted_at) := by
  have htrans : ∀ a b c : JobInfo,
      decide (b.submitted_at ≤ a.submitted_at) = true →
      decide (c.submitted_at ≤ b.submitted_at) = true →
      decide (c.submitted_at ≤ a.submitted_at) = true := by
    intro a b c h1 h2
    simp only [decide_eq_true_eq] at h1 h2 ⊢
    exact le_trans h2 h1
  have htot : ∀ a b : JobInfo,
      (decide (b.submitted_at ≤ a.submitted_at)
        || decide (a.submitted_at ≤ b.submitted_at)) = true := by
    intro a b
    rcases Int.le_total b.submitted_at a.submitted_at with h | h
    · simp [h]
    · simp [h]
  have hsorted : List.Pairwise (fun a b : JobInfo =>
      decide (b.submitted_at ≤ a.submitted_at) = true)
      ((st.jobs.map (fun p => jobInfoOf p.2)).mergeSort
        (fun a b => decide (b.submitted_at ≤ a.submitted_at))) :=
    List.sorted_mergeSort htrans htot _
  have hsorted' : List.Pairwise (fun a b : JobInfo => b.submitted_at ≤ a.submitted_at)
      ((st.jobs.map (fun p => jobInfoOf p.2)).mergeSort
        (fun a b => decide (b.submitted_at ≤ a.submitted_at))) :=
    hsorted.imp (fun h => by simpa using h)
  refine ⟨?_, ?_, ?_⟩
  · by_cases hl : 0 < limit
    · rw [listJobs, if_pos hl]
      exact hsorted'.sublist (List.take_sublist _ _)
    · rw [listJobs, if_neg hl]
      exact hsorted'
  · intro h0
    rw [listJobs, h0, if_neg (by omega)]
    exact List.mergeSort_perm _ _
  · intro hl
    refine ⟨?_, ?_, ?_⟩
    · rw [listJobs, if_pos hl]
      exact List.length_take_le _ _
    · rw [listJobs, if_pos hl, listJobs, if_neg (by omega)]
    · intro a ha b hb
      rw [listJobs, if_pos hl] at ha
      rw [listJobs, if_neg (by omega)] at hb
      have hsplit := (List.pairwise_append.mp (by
        rw [List.take_append_drop limit ((st.jobs.map (fun p => jobInfoOf p.2)).mergeSort
          (fun a b => decide (b.submitted_at ≤ a.submitted_at)))]
        exact hsorted')).2.2
      exact hsplit a ha b hb

/-- Concrete instance of `list_jobs_spec`: the limit forms of the claim on a
two-job state. -/
theorem list_jobs_spec_witness :
    (listJobs 0 stDone).Perm (stDone.jobs.map (fun p => jobInfoOf p.2))
    ∧ (listJobs 1 stDone).length ≤ 1
    ∧ listJobs 1 stDone = (listJobs 0 stDone).take 1
    ∧ ∀ a ∈ listJobs 1 stDone, ∀ b ∈ (listJobs 0 stDone).drop 1,
        b.submitted_at ≤ a.submitted_at :=
  ⟨(list_jobs_spec 0 stDone).2.1 rfl, (list_jobs_spec 1 stDone).2.2 (by decide)⟩

/-! ### Dispatch failure and the worker transformation -/

/-- C8: when the dispatch RPC fails, the handler sets the job FAILED with
`completed_at = now`, decrements the assigned worker load saturating at zero,
and leaves the worker record in the registry. -/
theorem dispatch_fail_spec (now : Int) (jid wid : String) (st : SchedulerState)
    (job : JobMetadata) (wk : WorkerMetadata)
    (hj : lookupA jid st.jobs = some job)
    (hw : lookupA wid st.workers = some wk) :
    lookupA jid (dispatchFail now jid wid st).jobs
      = some { job with status := JobStatusEnum.failed, completed_at := some now }
    ∧ lookupA wid (dispatchFail now jid wid st).workers
      = some { wk with active_jobs := wk.active_jobs - 1 }
    ∧ (wk.active_jobs = 0 →
        lookupA wid (dispatchFail now jid wid st).workers
          = some { wk with active_jobs := 0 }) := by
  refine ⟨?_, ?_, ?_⟩
  · simp only [dispatchFail]
    rw [lookupA_updateA, if_pos rfl, hj]
    rfl
  · simp only [dispatchFail]
    rw [lookupA_updateA, if_pos rfl, hw]
    rfl
  · intro h0
    simp only [dispatchFail]
    rw [lookupA_updateA, if_pos rfl, hw]
    simp [h0]

/-- Concrete instance of `dispatch_fail_spec` on `stW` (whose worker already
has zero active jobs, exhibiting the saturation). -/
theorem dispatch_fail_spec_witness :
    lookupA "j" stW.jobs = some jmW
    ∧ lookupA "w" stW.workers = some wmW
    ∧ lookupA "j" (dispatchFail 7 "j" "w" stW).jobs
        = some { jmW with status := JobStatusEnum.failed, completed_at := some 7 }
    ∧ lookupA "w" (dispatchFail 7 "j" "w" stW).workers
        = some { wmW with active_jobs := 0 } :=
  ⟨by decide, by decide,
    (dispatch_fail_spec 7 "j" "w" stW jmW wmW (by decide) (by decide)).1,
    (dispatch_fail_spec 7 "j" "w" stW jmW wmW (by decide) (by decide)).2.1⟩

/-- C9 (amended): the worker transformation is a pure function of the input
text and the executing worker id, and it genuinely depends on the worker id:
for an input that passes validation, workers with different ids produce
different output bytes (the id is appended to the output). -/
theorem transform_output_worker_dependent (s w1 w2 : String)
    (hs : looksLikeRust s = true) (hne : w1 ≠ w2) :
    transformOutput s w1 = Except.ok (s ++ " + compiled by worker " ++ w1)
    ∧ transformOutput s w2 = Except.ok (s ++ " + compiled by worker " ++ w2)
    ∧ transformOutput s w1 ≠ transformOutput s w2 := by
  refine ⟨by simp [transformOutput, hs], by simp [transformOutput, hs], ?_⟩
  simp only [transformOutput, hs, if_pos]
  intro h
  have h2 := Except.ok.inj h
  have h3 : (s ++ " + compiled by worker ").data ++ w1.data
      = (s ++ " + compiled by worker ").data ++ w2.data := by
    have h4 := congrArg String.data h2
    simpa [String.data_append] using h4
  exact hne (String.ext (List.append_cancel_left h3))

/-- Concrete instance of `transform_output_worker_dependent`. -/
theorem transform_output_worker_dependent_witness :
    looksLikeRust "fn main()" = true
    ∧ ("w1" : String) ≠ "w2"
    ∧ transformOutput "fn main()" "w1"
        = Except.ok ("fn main()" ++ " + compiled by worker " ++ "w1")
    ∧ transformOutput "fn main()" "w1" ≠ transformOutput "fn main()" "w2" :=
  ⟨by decide, by decide,
    (transform_output_worker_dependent "fn main()" "w1" "w2" (by decide) (by decide)).1,
    (transform_output_worker_dependent "fn main()" "w1" "w2" (by decide) (by decide)).2.2⟩

/-- C9 counterexample: the same input bytes with the same job_type and
metadata produce different outputs on workers `w1` and `w2`, so the output is
not a function of the (input, job_type, metadata) triple alone. -/
theorem transform_output_not_worker_invariant :
    transformOutput "fn main()" "w1" ≠ transformOutput "fn main()" "w2" := by
  decide

/-- Concrete instance of `hash_to_path_bytes_spec` on a short digest and on an
ASCII digest of both branches. -/
theorem hash_to_path_bytes_spec_witness :
    (utf8Len ("ab" : String).data < 4
      ∧ hashToPathBytes ["r"] "ab" = some (["r"] ++ ["ab"])
      ∧ casGet ["r"] [] "ab" = lookupA (["r"] ++ ["ab"]) [])
    ∧ (("abcdef" : String).data.all (fun c => utf8Width c = 1) = true
      ∧ hashToPathBytes ["r"] "abcdef" = some (hashToPath ["r"] "abcdef")) := by
  constructor
  · refine ⟨by decide, ?_, ?_⟩
    · exact ((hash_to_path_bytes_spec ["r"] "ab" [] (fun _ => "x") []).1 (by decide)).1
    · exact ((hash_to_path_bytes_spec ["r"] "ab" [] (fun _ => "x") []).1 (by decide)).2.2.2.2
  · exact ⟨by decide,
      (hash_to_path_bytes_spec ["r"] "abcdef" [] (fun _ => "x") []).2.2 (by decide)⟩
